import Mathlib

/-!
Shallow embedding of the agent-starter-pack Confluence RAG pipeline:
the retrieval tool (my-confluence-agent/app/agent.py), the ingestion
components (data_ingestion_pipeline/components/process_data.py and
confluence_loader.py), and their collaborators.
-/

namespace RagSpec

/-- A retrieved document, as handed around the query path
(langchain Document: we keep the `page_content` the claims speak about). -/
structure Doc where
  content : String
deriving Repr, DecidableEq

/-- Predicate: `a` occurs contiguously inside `b`. -/
def occursIn (a b : List Char) : Prop := ∃ s t, s ++ a ++ t = b

theorem occursIn_append_middle (s a t : List Char) : occursIn a (s ++ a ++ t) :=
  ⟨s, t, rfl⟩

theorem occursIn_of_occursIn_right (a b c : List Char) (h : occursIn a c) :
    occursIn a (b ++ c) := by
  obtain ⟨s, t, rfl⟩ := h
  exact ⟨b ++ s, t, by simp⟩

/-- Modelled from the spec: `format_docs.format` from `app/templates.py` is not
in the sources; per the spec the Context Formatter deterministically
concatenates each document's content (with salient metadata) into one block. -/
def format_docs (docs : List Doc) : String :=
  match docs with
  | [] => ""
  | d :: ds => "Document: " ++ d.content ++ "\n" ++ format_docs ds

theorem format_docs_contains (docs : List Doc) (d : Doc) (hd : d ∈ docs) :
    occursIn d.content.data (format_docs docs).data := by
  induction docs with
  | nil => cases hd
  | cons x xs ih =>
    cases hd with
    | head =>
      show occursIn d.content.data ("Document: " ++ d.content ++ "\n" ++ format_docs xs).data
      have : ("Document: " ++ d.content ++ "\n" ++ format_docs xs).data
          = "Document: ".data ++ d.content.data ++ ("\n" ++ format_docs xs).data := by
        simp [String.data_append]
      rw [this]
      exact ⟨"Document: ".data, ("\n" ++ format_docs xs).data, by simp⟩
    | tail _ hmem =>
      have h1 := ih hmem
      show occursIn d.content.data ("Document: " ++ x.content ++ "\n" ++ format_docs xs).data
      have : ("Document: " ++ x.content ++ "\n" ++ format_docs xs).data
          = ("Document: " ++ x.content ++ "\n").data ++ (format_docs xs).data := by
        simp [String.data_append]
      rw [this]
      exact occursIn_of_occursIn_right _ _ _ h1

/-- The two external collaborators of the retrieval tool: the vector-store
retriever (`retriever.invoke`) and the re-ranking compressor
(`compressor.compress_documents`).  Each may raise, modelled by `Except`. -/
structure RetrievalEnv where
  retrieve : String → Except String (List Doc)
  compress : List Doc → String → Except String (List Doc)

/-- The tool `retrieve_docs` from `app/agent.py`, instrumented with a flag recording
whether the compressor was invoked during the call.  The `try` block covers
retrieval, compression and formatting; every raise inside it is caught and
mapped to the literal marker `RETRIEVAL_TOOL_ERROR`. -/
def retrieve_docs (env : RetrievalEnv) (query : String) : String × Bool :=
  match env.retrieve query with
  | .error _ => ("RETRIEVAL_TOOL_ERROR", false)
  | .ok retrieved_docs =>
    if retrieved_docs.isEmpty then
      ("NO_RELEVANT_DOCUMENTS_FOUND", false)
    else
      match env.compress retrieved_docs query with
      | .error _ => ("RETRIEVAL_TOOL_ERROR", true)
      | .ok ranked_docs =>
        if ranked_docs.isEmpty then
          ("NO_RELEVANT_DOCUMENTS_FOUND", true)
        else
          (format_docs ranked_docs, true)

/-- Witness environment for the retrieval-tool claims: one document, identity
compression. -/
def envC1 : RetrievalEnv :=
  ⟨fun _ => .ok [⟨"alpha"⟩], fun ds _ => .ok ds⟩

/-- Witness environment for the short-circuit claim: empty retrieval. -/
def envC8 : RetrievalEnv :=
  ⟨fun _ => .ok [], fun ds _ => .ok ds⟩

/-- C1: for every query, `retrieve_docs` returns (it is a total function in this
embedding, mirroring that every exception is caught) exactly one of: the
no-results marker, the error marker, or formatted text; empty retrieval or
empty compression gives `NO_RELEVANT_DOCUMENTS_FOUND`; a raise in the
retriever or the compressor gives `RETRIEVAL_TOOL_ERROR`; and a non-empty
compressed result gives formatted text containing each surviving document's
content. -/
theorem claim_C1_retrieval_tool_tristate (env : RetrievalEnv) (query : String) :
    ((retrieve_docs env query).1 = "NO_RELEVANT_DOCUMENTS_FOUND" ∨
      (retrieve_docs env query).1 = "RETRIEVAL_TOOL_ERROR" ∨
      (∃ docs ranked, env.retrieve query = .ok docs ∧ docs ≠ [] ∧
        env.compress docs query = .ok ranked ∧ ranked ≠ [] ∧
        (retrieve_docs env query).1 = format_docs ranked ∧
        ∀ d ∈ ranked, occursIn d.content.data (retrieve_docs env query).1.data)) ∧
    (env.retrieve query = .ok [] →
      (retrieve_docs env query).1 = "NO_RELEVANT_DOCUMENTS_FOUND") ∧
    (∀ docs, env.retrieve query = .ok docs → docs ≠ [] →
      env.compress docs query = .ok [] →
      (retrieve_docs env query).1 = "NO_RELEVANT_DOCUMENTS_FOUND") ∧
    (∀ e, env.retrieve query = .error e →
      (retrieve_docs env query).1 = "RETRIEVAL_TOOL_ERROR") ∧
    (∀ docs e, env.retrieve query = .ok docs → docs ≠ [] →
      env.compress docs query = .error e →
      (retrieve_docs env query).1 = "RETRIEVAL_TOOL_ERROR") ∧
    (∀ docs ranked, env.retrieve query = .ok docs → docs ≠ [] →
      env.compress docs query = .ok ranked → ranked ≠ [] →
      (retrieve_docs env query).1 = format_docs ranked ∧
      ∀ d ∈ ranked, occursIn d.content.data (retrieve_docs env query).1.data) := by
  refine ⟨?_, ?_, ?_, ?_, ?_, ?_⟩
  · cases hre : env.retrieve query with
    | error e => exact Or.inr (Or.inl (by simp [retrieve_docs, hre]))
    | ok docs =>
      by_cases hd : docs = []
      · subst hd
        exact Or.inl (by simp [retrieve_docs, hre])
      · cases hco : env.compress docs query with
        | error e => exact Or.inr (Or.inl (by simp [retrieve_docs, hre, hco, hd]))
        | ok ranked =>
          by_cases hk : ranked = []
          · subst hk
            exact Or.inl (by simp [retrieve_docs, hre, hco, hd])
          · have hr : (retrieve_docs env query).1 = format_docs ranked := by
              simp [retrieve_docs, hre, hco, hd, hk]
            exact Or.inr (Or.inr ⟨docs, ranked, rfl, hd, hco, hk, hr,
              fun d hm => hr ▸ format_docs_contains ranked d hm⟩)
  · intro h; simp [retrieve_docs, h]
  · intro docs h hne hc; simp [retrieve_docs, h, hne, hc]
  · intro e h; simp [retrieve_docs, h]
  · intro docs e h hne hc; simp [retrieve_docs, h, hne, hc]
  · intro docs ranked h hne hc hk
    have hr : (retrieve_docs env query).1 = format_docs ranked := by
      simp [retrieve_docs, h, hne, hc, hk]
    exact ⟨hr, fun d hm => hr ▸ format_docs_contains ranked d hm⟩

/-- Witness for C1: a one-document environment takes the success branch and the
formatted result contains the document's content. -/
theorem claim_C1_witness :
    (retrieve_docs envC1 "q").1 = format_docs [⟨"alpha"⟩] ∧
    occursIn (String.data "alpha") (retrieve_docs envC1 "q").1.data := by
  obtain ⟨-, -, -, -, -, hD⟩ := claim_C1_retrieval_tool_tristate envC1 "q"
  have h2 := hD [⟨"alpha"⟩] [⟨"alpha"⟩] rfl (by simp) rfl (by simp)
  exact ⟨h2.1, h2.2 ⟨"alpha"⟩ (by simp)⟩

/-- Decimal digit characters, as produced by Python's str on an int. -/
def digitChar (d : Nat) : Char :=
  if d = 0 then '0' else if d = 1 then '1' else if d = 2 then '2'
  else if d = 3 then '3' else if d = 4 then '4' else if d = 5 then '5'
  else if d = 6 then '6' else if d = 7 then '7' else if d = 8 then '8' else '9'

/-- Decimal rendering of a natural number (Python str on a nonnegative int). -/
def natDigits (n : Nat) : List Char :=
  if n < 10 then [digitChar n]
  else natDigits (n / 10) ++ [digitChar (n % 10)]
termination_by n
decreasing_by exact Nat.div_lt_self (by omega) (by omega)

theorem digitChar_ne_underscore (d : Nat) : digitChar d ≠ '_' := by
  unfold digitChar
  split_ifs <;> decide

/-- Numeric value of a digit character. -/
def digitVal (c : Char) : Nat := c.toNat - 48

theorem digitVal_digitChar (d : Nat) (h : d < 10) : digitVal (digitChar d) = d := by
  interval_cases d <;> rfl

theorem natDigits_no_underscore (n : Nat) : ∀ c ∈ natDigits n, c ≠ '_' := by
  induction n using Nat.strong_induction_on with
  | _ n ih =>
    rw [natDigits]
    split
    · intro c hc
      simp at hc
      subst hc
      exact digitChar_ne_underscore _
    · intro c hc
      rw [List.mem_append] at hc
      rcases hc with h1 | h2
      · exact ih (n / 10) (Nat.div_lt_self (by omega) (by omega)) c h1
      · simp at h2
        subst h2
        exact digitChar_ne_underscore _

/-- Value of a digit string, most significant digit first. -/
def valDigits (l : List Char) : Nat := l.foldl (fun a c => 10 * a + digitVal c) 0

theorem valDigits_natDigits (n : Nat) : valDigits (natDigits n) = n := by
  induction n using Nat.strong_induction_on with
  | _ n ih =>
    rw [natDigits]
    split
    · simp [valDigits, digitVal_digitChar n (by omega)]
    · rw [valDigits, List.foldl_append]
      have h1 : (natDigits (n / 10)).foldl (fun a c => 10 * a + digitVal c) 0 = n / 10 :=
        ih (n / 10) (Nat.div_lt_self (by omega) (by omega))
      rw [h1]
      simp [digitVal_digitChar (n % 10) (Nat.mod_lt n (by omega))]
      omega

theorem natDigits_injective (m n : Nat) (h : natDigits m = natDigits n) : m = n := by
  have := congrArg valDigits h
  rwa [valDigits_natDigits, valDigits_natDigits] at this

theorem takeWhile_append_stop (q : Char → Bool) (xs ys : List Char) (y : Char)
    (hall : ∀ c ∈ xs, q c = true) (hy : q y = false) :
    (xs ++ y :: ys).takeWhile q = xs := by
  induction xs with
  | nil => simp [List.takeWhile_cons, hy]
  | cons x xs ih =>
    have hx : q x = true := hall x (by simp)
    simp only [List.cons_append, List.takeWhile_cons, hx, if_true]
    rw [ih (fun c hc => hall c (by simp [hc]))]

/-- Splitting at the separator "__" is unambiguous when what follows it has no
underscore: the suffix after the last underscore is uniquely determined. -/
theorem append_sep_cancel (p₁ p₂ d₁ d₂ : List Char)
    (h₁ : ∀ c ∈ d₁, c ≠ '_') (h₂ : ∀ c ∈ d₂, c ≠ '_')
    (heq : p₁ ++ '_' :: '_' :: d₁ = p₂ ++ '_' :: '_' :: d₂) :
    p₁ = p₂ ∧ d₁ = d₂ := by
  have hq : ∀ (d : List Char), (∀ c ∈ d, c ≠ '_') → ∀ c ∈ d.reverse, (c != '_') = true := by
    intro d hd c hc
    have := hd c (List.mem_reverse.mp hc)
    simpa using this
  have hd : d₁ = d₂ := by
    have hrev := congrArg List.reverse heq
    simp only [List.reverse_append, List.reverse_cons, List.append_assoc,
      List.singleton_append, List.cons_append, List.nil_append] at hrev
    have t₁ := takeWhile_append_stop (fun c => c != '_') d₁.reverse ('_' :: p₁.reverse) '_'
      (hq d₁ h₁) (by decide)
    have t₂ := takeWhile_append_stop (fun c => c != '_') d₂.reverse ('_' :: p₂.reverse) '_'
      (hq d₂ h₂) (by decide)
    have : d₁.reverse = d₂.reverse := by
      rw [← t₁, ← t₂, hrev]
    exact List.reverse_injective this
  subst hd
  exact ⟨List.append_cancel_right heq, rfl⟩

/-- Decimal rendering as a string. -/
def natRepr (n : Nat) : String := ⟨natDigits n⟩

/-- The chunk identifier built in `process_data`: page_id ++ "__" ++ str(i). -/
def chunkId (page_id : String) (i : Nat) : String :=
  page_id ++ "__" ++ natRepr i

theorem chunkId_data (page_id : String) (i : Nat) :
    (chunkId page_id i).data = page_id.data ++ '_' :: '_' :: natDigits i := by
  show (page_id ++ "__" ++ natRepr i).data = _
  rw [String.data_append, String.data_append, List.append_assoc]
  congr 1

theorem chunkId_inj (p₁ p₂ : String) (i₁ i₂ : Nat)
    (h : chunkId p₁ i₁ = chunkId p₂ i₂) : p₁ = p₂ ∧ i₁ = i₂ := by
  have hdata := congrArg String.data h
  rw [chunkId_data, chunkId_data] at hdata
  obtain ⟨hp, hd⟩ := append_sep_cancel _ _ _ _
    (natDigits_no_underscore i₁) (natDigits_no_underscore i₂) hdata
  refine ⟨?_, natDigits_injective _ _ hd⟩
  cases p₁ with
  | mk l₁ =>
    cases p₂ with
    | mk l₂ =>
      have hl : l₁ = l₂ := by simpa using hp
      rw [hl]

/-- A fetched Confluence page row, as assembled in `fetch_confluence_pages`
(columns id, title and the plain text body `full_text_md`). -/
structure Page where
  id : String
  title : String
  text : String
deriving Repr, DecidableEq

/-- One exploded row of the chunk DataFrame in `process_data`: the chunk
identifier page_id ++ "__" ++ str(i), the chunk text, and the source page
columns it inherits. -/
structure Chunk where
  chunk_id : String
  text_chunk : String
  page_id : String
  title : String
deriving Repr, DecidableEq

/-- The chunks produced for a single page: the splitter output enumerated,
chunk number i giving identifier page_id ++ "__" ++ str(i). -/
def pageChunks (split : String → List String) (p : Page) : List Chunk :=
  (split p.text).enum.map (fun it => ⟨chunkId p.id it.1, it.2, p.id, p.title⟩)

/-- The chunk rows of a whole `process_data` run, in page order then chunk
order (the explode of the DataFrame plus the pre-computed chunk_info ids). -/
def process_data_chunks (split : String → List String) (pages : List Page) :
    List Chunk :=
  pages.flatMap (pageChunks split)

theorem pageChunks_map_chunkId (split : String → List String) (p : Page) :
    (pageChunks split p).map Chunk.chunk_id
      = (List.range (split p.text).length).map (chunkId p.id) := by
  rw [← List.enum_map_fst (split p.text), List.map_map]
  simp only [pageChunks, List.map_map]
  rfl

/-- C2: the assembler gives the chunk at zero-based index i of page p the
identifier page_id ++ "__" ++ str(i), and pairwise-distinct page identifiers
give pairwise-distinct chunk identifiers across the whole run. -/
theorem claim_C2_chunk_identifier_uniqueness (split : String → List String)
    (pages : List Page) :
    (∀ p ∈ pages, ∀ i, (pageChunks split p).get? i
        = ((split p.text).get? i).map (fun t => ⟨chunkId p.id i, t, p.id, p.title⟩)) ∧
    ((pages.map Page.id).Nodup →
      ((process_data_chunks split pages).map Chunk.chunk_id).Nodup) := by
  constructor
  · intro p _ i
    simp only [pageChunks, List.get?_eq_getElem?, List.getElem?_map, List.getElem?_enum]
    cases (split p.text)[i]? <;> simp
  · intro hnodup
    have hpw : pages.Pairwise (fun a b => a.id ≠ b.id) := List.pairwise_map.mp hnodup
    have hmap : (process_data_chunks split pages).map Chunk.chunk_id
        = pages.flatMap (fun p => (List.range (split p.text).length).map (chunkId p.id)) := by
      rw [process_data_chunks, List.map_flatMap]
      exact List.flatMap_congr (fun p _ => pageChunks_map_chunkId split p)
    rw [hmap]
    rw [List.nodup_flatMap]
    constructor
    · intro p _
      exact (List.nodup_range _).map (fun i₁ i₂ h => (chunkId_inj _ _ _ _ h).2)
    · refine hpw.imp ?_
      intro a b hab x hxa hxb
      obtain ⟨i, _, rfl⟩ := List.mem_map.mp hxa
      obtain ⟨j, _, hj⟩ := List.mem_map.mp hxb
      exact hab (chunkId_inj _ _ _ _ hj.symm).1

/-- Split used by the C2 witness: every page yields two chunks. -/
def splitTwo (s : String) : List String := [s, s]

/-- Witness for C2: two pages with distinct ids yield four pairwise-distinct
chunk identifiers. -/
theorem claim_C2_witness :
    ((([⟨"7", "t", "x"⟩, ⟨"8", "t", "y"⟩] : List Page).map Page.id).Nodup) ∧
    ((process_data_chunks splitTwo [⟨"7", "t", "x"⟩, ⟨"8", "t", "y"⟩]).map
      Chunk.chunk_id).Nodup := by
  refine ⟨by decide, ?_⟩
  exact (claim_C2_chunk_identifier_uniqueness splitTwo
    [⟨"7", "t", "x"⟩, ⟨"8", "t", "y"⟩]).2 (by decide)

/-- Predicate: `a` is a leading segment of `b`. -/
def startsWith (a b : List Char) : Prop := b.take a.length = a

instance (a b : List Char) : Decidable (startsWith a b) := by
  unfold startsWith
  infer_instance

theorem startsWith_take (co : Nat) (l : List Char) : startsWith (l.take co) l := by
  unfold startsWith
  rw [List.length_take]
  rcases Nat.le_total co l.length with h | h
  · rw [Nat.min_eq_left h]
  · rw [Nat.min_eq_right h, List.take_length, List.take_of_length_le h]

/-- Modelled from the spec: langchain's RecursiveCharacterTextSplitter
(`text_splitter.split_text`) is third-party code not in the sources; per the
spec the Text Segmenter deterministically produces pieces of length at most
chunk_size, consecutive pieces sharing a boundary overlap of at most
chunk_overlap characters (the window advances by chunk_size - chunk_overlap),
and empty input yields no pieces. -/
def split_text (chunk_size chunk_overlap : Nat) (text : List Char) :
    List (List Char) :=
  if text.isEmpty then []
  else if text.length ≤ chunk_size then [text]
  else text.take chunk_size ::
    split_text chunk_size chunk_overlap
      (text.drop (max 1 (chunk_size - chunk_overlap)))
termination_by text.length
decreasing_by simp [List.length_drop]; omega

theorem split_text_head_startsWith (cs co : Nat) (hco : co ≤ cs)
    (text : List Char) :
    ∀ y ∈ (split_text cs co text).head?, startsWith (text.take co) y := by
  rw [split_text]
  split_ifs with h1 h2
  · simp
  · intro y hy
    simp only [List.head?_cons, Option.mem_def, Option.some.injEq] at hy
    subst hy
    exact startsWith_take co text
  · intro y hy
    simp only [List.head?_cons, Option.mem_def, Option.some.injEq] at hy
    subst hy
    have : text.take co = (text.take cs).take co := by
      rw [List.take_take, Nat.min_eq_left hco]
    rw [this]
    exact startsWith_take co (text.take cs)

theorem split_text_bounds (cs co : Nat) (h : co < cs) (n : Nat) :
    ∀ text : List Char, text.length ≤ n →
      (∀ p ∈ split_text cs co text, p.length ≤ cs) ∧
      List.Chain' (fun a b => (a.drop (cs - co)).length ≤ co ∧
        startsWith (a.drop (cs - co)) b) (split_text cs co text) := by
  induction n with
  | zero =>
    intro text hlen
    have : text = [] := List.eq_nil_of_length_eq_zero (by omega)
    subst this
    rw [split_text]
    simp
  | succ n ih =>
    intro text hlen
    rw [split_text]
    split_ifs with h1 h2
    · simp
    · constructor
      · intro p hp
        simp only [List.mem_singleton] at hp
        subst hp
        exact h2
      · exact List.chain'_singleton text
    · have hmax : max 1 (cs - co) = cs - co := by omega
      rw [hmax]
      have hlen' : (text.drop (cs - co)).length ≤ n := by
        rw [List.length_drop]
        omega
      have ihx := ih (text.drop (cs - co)) hlen'
      have hdt : (text.take cs).drop (cs - co) = (text.drop (cs - co)).take co := by
        rw [List.drop_take]
        congr 1
        omega
      constructor
      · intro p hp
        rcases List.mem_cons.mp hp with rfl | hmem
        · exact List.length_take_le cs text
        · exact ihx.1 p hmem
      · refine List.Chain'.cons' ihx.2 ?_
        intro y hy
        constructor
        · rw [hdt]
          have := List.length_take_le co (text.drop (cs - co))
          omega
        · rw [hdt]
          exact split_text_head_startsWith cs co (Nat.le_of_lt h) (text.drop (cs - co)) y hy

/-- C6: with chunk_overlap < chunk_size, every piece the splitter produces has
at most chunk_size characters, consecutive pieces share a boundary overlap (a
shared segment ending one piece and starting the next) of at most
chunk_overlap characters, and empty input yields no pieces. -/
theorem claim_C6_splitter_size_and_overlap (chunk_size chunk_overlap : Nat)
    (text : List Char) (h : chunk_overlap < chunk_size) :
    (∀ p ∈ split_text chunk_size chunk_overlap text, p.length ≤ chunk_size) ∧
    List.Chain' (fun a b =>
        (a.drop (chunk_size - chunk_overlap)).length ≤ chunk_overlap ∧
        startsWith (a.drop (chunk_size - chunk_overlap)) b)
      (split_text chunk_size chunk_overlap text) ∧
    split_text chunk_size chunk_overlap [] = [] := by
  have hb := split_text_bounds chunk_size chunk_overlap h text.length text (Nat.le_refl _)
  refine ⟨hb.1, hb.2, ?_⟩
  rw [split_text]
  simp

/-- Witness for C6: the spec scenario, chunk_size 5 and chunk_overlap 2 on the
14-character page body. -/
theorem claim_C6_witness :
    (∀ p ∈ split_text 5 2 "AAAA BBBB CCCC".data, p.length ≤ 5) ∧
    List.Chain' (fun a b => (a.drop 3).length ≤ 2 ∧ startsWith (a.drop 3) b)
      (split_text 5 2 "AAAA BBBB CCCC".data) ∧
    split_text 5 2 [] = [] := by
  have h := claim_C6_splitter_size_and_overlap 5 2 "AAAA BBBB CCCC".data (by omega)
  simpa using h

/-- The splitter lifted to strings, as applied page-wise in `process_data`. -/
def split_text_str (chunk_size chunk_overlap : Nat) (s : String) : List String :=
  (split_text chunk_size chunk_overlap s.data).map String.mk

/-- Run-specific context of a `process_data` run: the fresh uuid4 hex used in
the output filename and the utcnow creation timestamp. -/
structure RunContext where
  uuidHex : String
  creation_timestamp : String

/-- One line of the exported JSONL: the chunk id and the payload fields. -/
structure ExportedRecord where
  id : String
  content : String
  source_title : String
  source_page_id : String
  creation_timestamp : String

/-- The JSONL rows of a run: one per chunk, carrying the run timestamp. -/
def exportRecords (split : String → List String) (pages : List Page)
    (ctx : RunContext) : List ExportedRecord :=
  (process_data_chunks split pages).map
    (fun c => ⟨c.chunk_id, c.text_chunk, c.title, c.page_id, ctx.creation_timestamp⟩)

/-- The run-dependent export filename (confluence_ ++ uuid4().hex ++ .jsonl). -/
def exportFileName (ctx : RunContext) : String :=
  "confluence_" ++ ctx.uuidHex ++ ".jsonl"

/-- C7: two runs of splitting and assembly on the same pages with the same
chunk_size and chunk_overlap produce identical chunk sequences, and the
exported (identifier, content) pairs do not depend on the run context (uuid,
timestamp), so re-ingestion of unchanged input overwrites the same keys in an
identifier-keyed store. -/
theorem claim_C7_rerun_determinism (chunk_size chunk_overlap : Nat)
    (pages : List Page) (ctx₁ ctx₂ : RunContext) :
    process_data_chunks (split_text_str chunk_size chunk_overlap) pages
      = process_data_chunks (split_text_str chunk_size chunk_overlap) pages ∧
    (exportRecords (split_text_str chunk_size chunk_overlap) pages ctx₁).map
        (fun r => (r.id, r.content))
      = (exportRecords (split_text_str chunk_size chunk_overlap) pages ctx₂).map
        (fun r => (r.id, r.content)) := by
  refine ⟨rfl, ?_⟩
  simp only [exportRecords, List.map_map]
  rfl

/-- The pagination loop of `get_all_page_ids_for_space`: request a page of
results from the current offset; an empty page or a page shorter than the
limit ends the loop, otherwise the offset advances by the limit.  The second
component records the offsets requested (one backend call each); the fuel
bounds the number of requests so the loop is total. -/
def pageIdLoop (backend : Nat → List String) (limit : Nat) :
    Nat → Nat → List String × List Nat
  | _, 0 => ([], [])
  | start, fuel + 1 =>
    let results := backend start
    if results.isEmpty then ([], [start])
    else if results.length < limit then (results, [start])
    else
      let rest := pageIdLoop backend limit (start + limit) fuel
      (results ++ rest.1, start :: rest.2)

/-- Discovery entry `get_all_page_ids_for_space`: fixed page size 50, starting offset 0. -/
def get_all_page_ids_for_space (backend : Nat → List String) (fuel : Nat) :
    List String × List Nat :=
  pageIdLoop backend 50 0 fuel

/-- C5: discovery requests pages of size 50 from offset 0 advancing by 50, and
stops at the first response with fewer results than requested: a backend
returning 50 ids at offset 0 and fewer than 50 at offset 50 yields exactly the
concatenation of the two responses, with exactly the two requests 0 and 50. -/
theorem claim_C5_paginated_discovery (backend : Nat → List String) (fuel : Nat)
    (h0 : (backend 0).length = 50) (h1 : (backend 50).length < 50) :
    get_all_page_ids_for_space backend (fuel + 2)
      = (backend 0 ++ backend 50, [0, 50]) := by
  have hne0 : (backend 0).isEmpty = false := by
    rcases he : backend 0 with _ | ⟨x, xs⟩
    · rw [he] at h0; simp at h0
    · rfl
  rw [get_all_page_ids_for_space, pageIdLoop]
  simp only [hne0, Bool.false_eq_true, if_false, h0, Nat.lt_irrefl, Nat.zero_add]
  rcases he : backend 50 with _ | ⟨x, xs⟩
  · rw [pageIdLoop]
    simp [he]
  · rw [pageIdLoop]
    have hne1 : (backend 50).isEmpty = false := by rw [he]; rfl
    simp only [hne1, Bool.false_eq_true, if_false, h1, if_true]
    simp [he]

/-- Backend for the C5 witness: exactly 50 results at offset 0, then 3. -/
def backendW (start : Nat) : List String :=
  if start = 0 then (List.range 50).map natRepr
  else if start = 50 then ["a", "b", "c"] else []

/-- Witness for C5 at the concrete two-page backend. -/
theorem claim_C5_witness :
    get_all_page_ids_for_space backendW 2 = (backendW 0 ++ backendW 50, [0, 50]) :=
  claim_C5_paginated_discovery backendW 0 (by simp [backendW]) (by simp [backendW])

/-- Python str.split on a comma: the comma-separated fields, in order. -/
def splitOnComma (l : List Char) : List (List Char) :=
  match l with
  | [] => [[]]
  | c :: rest =>
    match splitOnComma rest with
    | [] => [[]]
    | cur :: done => if c = ',' then [] :: cur :: done else (c :: cur) :: done

/-- Python str.strip whitespace test (the ASCII whitespace that occurs here). -/
def isSpaceChar (c : Char) : Bool :=
  c = ' ' || c = '\t' || c = '\n' || c = '\r'

/-- Python str.strip: remove leading and trailing whitespace. -/
def stripChars (l : List Char) : List Char :=
  ((l.dropWhile isSpaceChar).reverse.dropWhile isSpaceChar).reverse

/-- The parsing of the comma-separated explicit page-id parameter:
split on commas, strip each field, keep the non-empty (truthy) ones. -/
def parsePageIds (s : String) : List String :=
  (((splitOnComma s.data).map (fun l => (⟨stripChars l⟩ : String))).filter
    (fun p => p ≠ ""))

/-- The configuration-error message raised when neither mode is given. -/
def configErrorMsg : String :=
  "Either confluence_space_key or confluence_page_ids must be provided."

/-- The parameter-handling block of `process_data`: a non-empty space key
(Python truthiness) selects paginated discovery; otherwise a non-empty
explicit id string is parsed; otherwise a ValueError is raised.  The second
component records the offsets requested from the space-listing backend (the
network calls made during selection). -/
def selectPageIds (spaceBackend : Nat → List String) (fuel : Nat)
    (confluence_space_key confluence_page_ids : String) :
    Except String (List String) × List Nat :=
  if confluence_space_key ≠ "" then
    let r := get_all_page_ids_for_space spaceBackend fuel
    (.ok r.1, r.2)
  else if confluence_page_ids ≠ "" then
    (.ok (parsePageIds confluence_page_ids), [])
  else
    (.error configErrorMsg, [])

/-- C9: exactly one selection mode per run: a non-empty space key triggers
discovery and the explicit id list is ignored; with an empty key a non-empty
id string is parsed and used with no backend call; with both empty a
configuration error is raised with no backend call (the result is independent
of the backend and the call trace is empty). -/
theorem claim_C9_page_selection_modes (sb : Nat → List String) (fuel : Nat)
    (key pids : String) :
    (key ≠ "" → ∀ pids',
      selectPageIds sb fuel key pids = selectPageIds sb fuel key pids' ∧
      selectPageIds sb fuel key pids
        = (.ok (get_all_page_ids_for_space sb fuel).1,
           (get_all_page_ids_for_space sb fuel).2)) ∧
    (key = "" → pids ≠ "" →
      selectPageIds sb fuel key pids = (.ok (parsePageIds pids), [])) ∧
    (key = "" → pids = "" → ∀ (sb' : Nat → List String) (fuel' : Nat),
      selectPageIds sb' fuel' key pids = (.error configErrorMsg, [])) := by
  refine ⟨?_, ?_, ?_⟩
  · intro hk pids'
    constructor <;> simp [selectPageIds, hk]
  · intro hk hp
    simp [selectPageIds, hk, hp]
  · intro hk hp sb' fuel'
    simp [selectPageIds, hk, hp]

/-- Witness for C9: the three modes at concrete parameters. -/
theorem claim_C9_witness :
    (selectPageIds backendW 2 "BE" "x" = selectPageIds backendW 2 "BE" "y") ∧
    (selectPageIds backendW 2 "" "1, 2" = (.ok ["1", "2"], [])) ∧
    (selectPageIds backendW 2 "" "" = (.error configErrorMsg, [])) := by
  refine ⟨?_, ?_, ?_⟩
  · exact ((claim_C9_page_selection_modes backendW 2 "BE" "x").1 (by decide) "y").1
  · have h := (claim_C9_page_selection_modes backendW 2 "" "1, 2").2.1 rfl (by decide)
    have hp : parsePageIds "1, 2" = ["1", "2"] := by decide
    rw [h, hp]
  · exact (claim_C9_page_selection_modes backendW 2 "" "").2.2 rfl rfl backendW 2

/-- Outcome of one call of the wrapped embedding-client constructor. -/
inductive EmbedOutcome (α : Type) where
  | ok (a : α)
  | invalidArgument
  | otherError

/-- The exception class escaping the retry wrapper. -/
inductive EmbErr where
  | invalidArgument
  | otherError
deriving Repr, DecidableEq

/-- The backoff.on_exception(backoff.expo, InvalidArgument, max_tries) wrapper
around `create_embedder`: attempt k is the k-th call of the target; only
InvalidArgument triggers a retry, with a wait of 2 ^ k between attempts k and
k + 1; any other exception propagates at once; when the remaining try budget
is exhausted the InvalidArgument propagates (and the run aborts with no
embedding output).  Returns the result, the number of attempts made, and the
waits performed. -/
def backoffRun {α : Type} (attempt : Nat → EmbedOutcome α) :
    Nat → Nat → Except EmbErr α × Nat × List Nat
  | _, 0 => (.error .invalidArgument, 0, [])
  | k, r + 1 =>
    match attempt k with
    | .ok a => (.ok a, 1, [])
    | .otherError => (.error .otherError, 1, [])
    | .invalidArgument =>
      if r = 0 then (.error .invalidArgument, 1, [])
      else
        let rest := backoffRun attempt (k + 1) r
        (rest.1, rest.2.1 + 1, 2 ^ k :: rest.2.2)

/-- Construction `create_embedder` with its decorator, max_tries = 10. -/
def create_embedder {α : Type} (attempt : Nat → EmbedOutcome α) :
    Except EmbErr α × Nat × List Nat :=
  backoffRun attempt 0 10

/-- The result forced by an attempt outcome that stops the retry loop. -/
def stopOf {α : Type} : EmbedOutcome α → Option (Except EmbErr α)
  | .ok a => some (.ok a)
  | .otherError => some (.error .otherError)
  | .invalidArgument => none

theorem range_pow_cons (k m : Nat) :
    (List.range (m + 1)).map (fun j => 2 ^ (k + j))
      = 2 ^ k :: (List.range m).map (fun j => 2 ^ (k + 1 + j)) := by
  rw [List.range_succ_eq_map, List.map_cons, List.map_map]
  refine congrArg₂ List.cons (by simp) ?_
  apply List.map_congr_left
  intro j _
  show 2 ^ (k + (j + 1)) = 2 ^ (k + 1 + j)
  congr 1
  omega

theorem backoffRun_stop {α : Type} (attempt : Nat → EmbedOutcome α)
    (res : Except EmbErr α) :
    ∀ (m k r : Nat), m < r →
      (∀ j, j < m → attempt (k + j) = .invalidArgument) →
      stopOf (attempt (k + m)) = some res →
      backoffRun attempt k r
        = (res, m + 1, (List.range m).map (fun j => 2 ^ (k + j))) := by
  intro m
  induction m with
  | zero =>
    intro k r hr _ hstop
    obtain ⟨r', rfl⟩ : ∃ r', r = r' + 1 := ⟨r - 1, by omega⟩
    rw [Nat.add_zero] at hstop
    rw [backoffRun]
    cases hat : attempt k with
    | ok a =>
      rw [hat] at hstop
      simp only [stopOf, Option.some.injEq] at hstop
      subst hstop
      simp
    | invalidArgument =>
      rw [hat] at hstop
      simp [stopOf] at hstop
    | otherError =>
      rw [hat] at hstop
      simp only [stopOf, Option.some.injEq] at hstop
      subst hstop
      simp
  | succ m ih =>
    intro k r hr hinv hstop
    obtain ⟨r', rfl⟩ : ∃ r', r = r' + 1 := ⟨r - 1, by omega⟩
    have h0 : attempt k = .invalidArgument := by
      have := hinv 0 (by omega)
      simpa using this
    rw [backoffRun, h0]
    have hr' : ¬ r' = 0 := by omega
    have ihx := ih (k + 1) r' (by omega)
      (fun j hj => by
        have := hinv (j + 1) (by omega)
        rwa [show k + (j + 1) = k + 1 + j by omega] at this)
      (by rwa [show k + 1 + m = k + (m + 1) by omega])
    simp only [hr', if_false, ihx, range_pow_cons]

theorem backoffRun_exhaust {α : Type} (attempt : Nat → EmbedOutcome α) :
    ∀ (r k : Nat), 1 ≤ r →
      (∀ j, j < r → attempt (k + j) = .invalidArgument) →
      backoffRun attempt k r
        = (.error .invalidArgument, r,
           (List.range (r - 1)).map (fun j => 2 ^ (k + j))) := by
  intro r
  induction r with
  | zero => intro k h; omega
  | succ r ih =>
    intro k _ hinv
    have h0 : attempt k = .invalidArgument := by
      have := hinv 0 (by omega)
      simpa using this
    rw [backoffRun, h0]
    by_cases hr : r = 0
    · subst hr
      simp
    · have ihx := ih k.succ (by omega)
        (fun j hj => by
          have := hinv (j + 1) (by omega)
          rwa [show k + (j + 1) = k + 1 + j by omega] at this)
      simp only [hr, if_false, Nat.succ_eq_add_one] at ihx ⊢
      rw [ihx]
      have : (List.range (r + 1 - 1)).map (fun j => 2 ^ (k + j))
          = 2 ^ k :: (List.range (r - 1)).map (fun j => 2 ^ (k + 1 + j)) := by
        obtain ⟨r'', rfl⟩ : ∃ r'', r = r'' + 1 := ⟨r - 1, by omega⟩
        simpa using range_pow_cons k r''
      rw [this]

theorem backoffRun_attempts_le {α : Type} (attempt : Nat → EmbedOutcome α) :
    ∀ (r k : Nat), (backoffRun attempt k r).2.1 ≤ r := by
  intro r
  induction r with
  | zero => intro k; rw [backoffRun]
  | succ r ih =>
    intro k
    rw [backoffRun]
    cases hat : attempt k with
    | ok a => simp
    | otherError => simp
    | invalidArgument =>
      by_cases hr : r = 0
      · subst hr; simp
      · have := ih (k + 1)
        simp only [hr, if_false]
        simpa using Nat.add_le_add_right this 1

/-- C4: the embedding-client construction makes at most 10 attempts; failing
attempts of the InvalidArgument class are retried with exponentially doubling
waits 1, 2, 4, ...; an exception of any other class stops the loop at once
(never retried); and 10 InvalidArgument failures exhaust the budget, the
failure propagating as an error (so the run aborts with no embedding
output). -/
theorem claim_C4_embedder_retry_policy {α : Type} (attempt : Nat → EmbedOutcome α) :
    ((create_embedder attempt).2.1 ≤ 10) ∧
    (∀ k a, k < 10 → (∀ j, j < k → attempt j = .invalidArgument) →
      attempt k = .ok a →
      create_embedder attempt
        = (.ok a, k + 1, (List.range k).map (fun j => 2 ^ j))) ∧
    (∀ k, k < 10 → (∀ j, j < k → attempt j = .invalidArgument) →
      attempt k = .otherError →
      create_embedder attempt
        = (.error .otherError, k + 1, (List.range k).map (fun j => 2 ^ j))) ∧
    ((∀ j, j < 10 → attempt j = .invalidArgument) →
      create_embedder attempt
        = (.error .invalidArgument, 10, (List.range 9).map (fun j => 2 ^ j))) := by
  have hpow : ∀ m : Nat, (List.range m).map (fun j => 2 ^ (0 + j))
      = (List.range m).map (fun j => 2 ^ j) := by
    intro m
    apply List.map_congr_left
    intro j _
    rw [Nat.zero_add]
  refine ⟨backoffRun_attempts_le attempt 10 0, ?_, ?_, ?_⟩
  · intro k a hk hinv hat
    have := backoffRun_stop attempt (.ok a) k 0 10 hk
      (fun j hj => by simpa using hinv j hj)
      (by rw [Nat.zero_add, hat]; rfl)
    rwa [hpow] at this
  · intro k hk hinv hat
    have := backoffRun_stop attempt (.error .otherError) k 0 10 hk
      (fun j hj => by simpa using hinv j hj)
      (by rw [Nat.zero_add, hat]; rfl)
    rwa [hpow] at this
  · intro hinv
    have := backoffRun_exhaust attempt 10 0 (by omega)
      (fun j hj => by simpa using hinv j hj)
    rwa [show (10 : Nat) - 1 = 9 from rfl, hpow] at this

/-- Attempt sequence for the C4 witness: three InvalidArgument failures, then
success. -/
def attemptW (k : Nat) : EmbedOutcome Unit :=
  if k < 3 then .invalidArgument else .ok ()

/-- Witness for C4: after three transient failures the construction succeeds
on the fourth attempt, having waited 1, 2 and 4. -/
theorem claim_C4_witness :
    create_embedder attemptW = (.ok (), 4, [1, 2, 4]) ∧
    (create_embedder attemptW).2.1 ≤ 10 := by
  obtain ⟨hcap, hok, -, -⟩ := claim_C4_embedder_retry_policy attemptW
  have h := hok 3 () (by omega)
    (fun j hj => by
      have : j < 3 := hj
      simp [attemptW, this])
    (by simp [attemptW])
  rw [h]
  exact ⟨rfl, hcap⟩

/-- Fetcher `fetch_confluence_pages` from `process_data`: pages are fetched one by
one; `raise_for_status` has no surrounding try, so a failing page fetch
propagates to the caller and aborts the whole run. -/
def fetch_confluence_pages (fetchPage : String → Except String Page)
    (page_ids : List String) : Except String (List Page) :=
  match page_ids with
  | [] => .ok []
  | pid :: rest =>
    match fetchPage pid with
    | .error e => .error e
    | .ok p =>
      match fetch_confluence_pages fetchPage rest with
      | .error e => .error e
      | .ok ps => .ok (p :: ps)

/-- A langchain Document as built in `confluence_loader`: the page text plus
the page_id metadata entry. -/
structure LCDocument where
  page_content : String
  page_id : String
deriving Repr, DecidableEq

/-- The fetch loop of `load_and_split_documents`: each page fetch sits inside
try/except; a failure is logged and skipped with continue. -/
def loadDocuments (fetchPage : String → Except String String)
    (page_ids : List String) : List LCDocument :=
  match page_ids with
  | [] => []
  | pid :: rest =>
    match fetchPage pid with
    | .error _ => loadDocuments fetchPage rest
    | .ok content => ⟨content, pid⟩ :: loadDocuments fetchPage rest

/-- splitter.split_documents: split each document's text; every chunk
inherits the document's metadata. -/
def split_documents (split : String → List String) (docs : List LCDocument) :
    List LCDocument :=
  docs.flatMap (fun d => (split d.page_content).map (fun t => ⟨t, d.page_id⟩))

/-- Loader entry `load_and_split_documents` from `confluence_loader`. -/
def load_and_split_documents (fetchPage : String → Except String String)
    (split : String → List String) (page_ids : List String) : List LCDocument :=
  split_documents split (loadDocuments fetchPage page_ids)

/-- Page fetcher for the C3 counterexample: page "B" raises. -/
def cexFetch (pid : String) : Except String Page :=
  if pid = "B" then .error "HTTP 500" else .ok ⟨pid, "t", "body"⟩

/-- Counterexample to C3 as stated: in `process_data`'s
`fetch_confluence_pages` a single failing page among three makes the whole
fetch return the propagated error, so the run aborts and no chunks are
produced for the other two pages. -/
theorem claim_C3_counterexample :
    fetch_confluence_pages cexFetch ["A", "B", "C"] = .error "HTTP 500" := by
  rfl

theorem loadDocuments_append (fetchPage : String → Except String String)
    (l₁ l₂ : List String) :
    loadDocuments fetchPage (l₁ ++ l₂)
      = loadDocuments fetchPage l₁ ++ loadDocuments fetchPage l₂ := by
  induction l₁ with
  | nil => rfl
  | cons x xs ih =>
    rw [List.cons_append, loadDocuments, loadDocuments]
    cases fetchPage x with
    | error e => exact ih
    | ok c => rw [ih]; rfl

theorem loadDocuments_all_ok (fetchPage : String → Except String String)
    (ids : List String) (hok : ∀ p ∈ ids, ∃ c, fetchPage p = .ok c) :
    (loadDocuments fetchPage ids).map LCDocument.page_id = ids := by
  induction ids with
  | nil => rfl
  | cons x xs ih =>
    obtain ⟨c, hc⟩ := hok x (by simp)
    rw [loadDocuments, hc, List.map_cons]
    rw [ih (fun p hp => hok p (by simp [hp]))]

/-- C3 amended: in the loader used by the pipeline
(`load_and_split_documents`), a failing page fetch is skipped: the run
behaves exactly as if the failing id were absent, the surviving documents are
the other N - 1 pages in order, and chunking proceeds on them.  (In
`process_data`'s `fetch_confluence_pages` the failure instead propagates, see
the counterexample.) -/
theorem claim_C3_loader_skips_failing_page
    (fetchPage : String → Except String String) (split : String → List String)
    (pre post : List String) (bad e : String)
    (hbad : fetchPage bad = .error e)
    (hok : ∀ p ∈ pre ++ post, ∃ c, fetchPage p = .ok c) :
    loadDocuments fetchPage (pre ++ bad :: post)
      = loadDocuments fetchPage (pre ++ post) ∧
    (loadDocuments fetchPage (pre ++ bad :: post)).map LCDocument.page_id
      = pre ++ post ∧
    load_and_split_documents fetchPage split (pre ++ bad :: post)
      = load_and_split_documents fetchPage split (pre ++ post) := by
  have hskip : loadDocuments fetchPage (pre ++ bad :: post)
      = loadDocuments fetchPage (pre ++ post) := by
    rw [loadDocuments_append, loadDocuments_append, loadDocuments, hbad]
  refine ⟨hskip, ?_, ?_⟩
  · rw [hskip]
    exact loadDocuments_all_ok fetchPage (pre ++ post) hok
  · rw [load_and_split_documents, load_and_split_documents, hskip]

/-- Page fetcher for the C3 witness. -/
def fetchW (pid : String) : Except String String :=
  if pid = "B" then .error "boom" else .ok pid

/-- Witness for C3 amended: with page "B" failing among A, B, C, the loader
keeps exactly A and C. -/
theorem claim_C3_witness :
    loadDocuments fetchW ["A", "B", "C"] = loadDocuments fetchW ["A", "C"] ∧
    (loadDocuments fetchW ["A", "B", "C"]).map LCDocument.page_id = ["A", "C"] ∧
    load_and_split_documents fetchW splitTwo ["A", "B", "C"]
      = load_and_split_documents fetchW splitTwo ["A", "C"] := by
  have h := claim_C3_loader_skips_failing_page fetchW splitTwo
    ["A"] ["C"] "B" "boom" rfl
    (by
      intro p hp
      simp only [List.cons_append, List.nil_append, List.mem_cons,
        List.not_mem_nil, or_false, List.mem_singleton] at hp
      rcases hp with rfl | rfl
      · exact ⟨"A", rfl⟩
      · exact ⟨"C", rfl⟩)
  simpa using h

/-- One JSONL record written by `load_confluence_data`: the id field, the
chunk content, and the metadata page_id it copies. -/
structure OutputItem where
  id : String
  content : String
  metadata_page_id : String
deriving Repr, DecidableEq

/-- The output rows of `load_confluence_data`: one per chunk, with
id := doc.metadata["page_id"] (no chunk index appended). -/
def load_confluence_outputs (fetchPage : String → Except String String)
    (split : String → List String) (page_ids : List String) : List OutputItem :=
  (load_and_split_documents fetchPage split page_ids).map
    (fun d => ⟨d.page_id, d.page_content, d.page_id⟩)

/-- C10: every exported record's id equals its source page's identifier (the
metadata page_id), with no chunk index appended, and every chunk of a loaded
page yields a record carrying that page's id — so a page split into two or
more chunks yields that many records all sharing the same id. -/
theorem claim_C10_loader_record_ids (fetchPage : String → Except String String)
    (split : String → List String) (page_ids : List String) :
    (∀ item ∈ load_confluence_outputs fetchPage split page_ids,
      ∃ d ∈ loadDocuments fetchPage page_ids,
        item.id = d.page_id ∧ item.metadata_page_id = d.page_id ∧
        item.content ∈ split d.page_content) ∧
    (∀ d ∈ loadDocuments fetchPage page_ids, ∀ t ∈ split d.page_content,
      (⟨d.page_id, t, d.page_id⟩ : OutputItem)
        ∈ load_confluence_outputs fetchPage split page_ids) := by
  constructor
  · intro item hitem
    simp only [load_confluence_outputs, List.mem_map] at hitem
    obtain ⟨d', hd', rfl⟩ := hitem
    simp only [load_and_split_documents, split_documents, List.mem_flatMap,
      List.mem_map] at hd'
    obtain ⟨d, hd, t, ht, rfl⟩ := hd'
    exact ⟨d, hd, rfl, rfl, ht⟩
  · intro d hd t ht
    simp only [load_confluence_outputs, List.mem_map]
    refine ⟨⟨t, d.page_id⟩, ?_, rfl⟩
    simp only [load_and_split_documents, split_documents, List.mem_flatMap]
    exact ⟨d, hd, List.mem_map.mpr ⟨t, ht, rfl⟩⟩

/-- Page fetcher for the C10 witness. -/
def fetchW10 (pid : String) : Except String String :=
  .ok ("body" ++ pid)

/-- Witness for C10: page "P" splits into two chunks; both records carry id
"P" (the page id, no chunk index). -/
theorem claim_C10_witness :
    (⟨"P", "bodyP", "P"⟩ : OutputItem)
      ∈ load_confluence_outputs fetchW10 splitTwo ["P"] := by
  have h := (claim_C10_loader_record_ids fetchW10 splitTwo ["P"]).2
    ⟨"bodyP", "P"⟩ (by decide) "bodyP" (by decide)
  exact h

/-- C8: when the retriever yields zero documents, the tool returns the
no-results marker and the compressor is never invoked (second component
`false` is the instrumented invocation flag). -/
theorem claim_C8_compression_short_circuit (env : RetrievalEnv) (query : String)
    (h : env.retrieve query = .ok []) :
    retrieve_docs env query = ("NO_RELEVANT_DOCUMENTS_FOUND", false) := by
  simp [retrieve_docs, h]

/-- Witness for C8 at a concrete empty-retrieval environment. -/
theorem claim_C8_witness :
    retrieve_docs envC8 "q" = ("NO_RELEVANT_DOCUMENTS_FOUND", false) :=
  claim_C8_compression_short_circuit envC8 "q" rfl

end RagSpec
